import Mathlib

/-!
Verification of the SPI bus/device core of the e310x hardware-abstraction layer.

The definitions below are a shallow embedding of the Rust sources:
* `src/spi/bus.rs`        — `SpiBus`: `configure`, `start_frame`, `end_frame`,
  `perform_transfer`, `transfer_in_place`, `read`, `write`;
* `src/spi/shared_bus.rs` / `src/spi/shared_device.rs` — the critical-section
  arbitration of `SpiSharedDevice`;
* `src/spi/exclusive_device.rs` — `SpiExclusiveDevice`'s framed transactions;
* `src/spi.rs`            — the legacy `Spi` driver (`Spi::new`, blocking
  `transfer`, and the `AsyncTransferFuture` poll state machine).

Machine integers are modelled as `Nat` (no arithmetic in this core overflows in
a way any claim depends on), FIFO hardware is modelled by observation schedules
(`tx : Nat → Bool` gives the transmit-full flag at each status read, and
`rx : Nat → Option Nat` gives `none` for an empty receive FIFO or `some b` for
an available byte), and the unbounded `while` loops are modelled with explicit
fuel or as step functions iterated with `Function.iterate`.
-/

/-- SPI clock phase (embedded-hal `Phase`). -/
inductive SpiPhase
  | captureOnFirstTransition
  | captureOnSecondTransition
deriving DecidableEq, Repr

/-- SPI clock polarity (embedded-hal `Polarity`). -/
inductive SpiPolarity
  | idleLow
  | idleHigh
deriving DecidableEq, Repr

/-- SPI mode: phase/polarity pair (embedded-hal `Mode`). -/
structure SpiMode where
  phase : SpiPhase
  polarity : SpiPolarity
deriving DecidableEq, Repr

/-- Chip-select mode register values used by `spi/bus.rs`
(the PAC variants `auto`, `hold`, `off`). -/
inductive CsMode
  | auto
  | hold
  | off
deriving DecidableEq, Repr

/-- The four delay fields of `SpiConfig.delays` written to `delay0`/`delay1`. -/
structure SpiDelays where
  cssck : Nat
  sckcs : Nat
  intercs : Nat
  interxfr : Nat
deriving DecidableEq, Repr

/-- The per-device `SpiConfig` value consumed by `SpiBus::configure`
(the struct itself lives in a configuration file not present under `src/`;
its fields are exactly those `configure` in `src/spi/bus.rs` reads). -/
structure SpiConfig where
  clock_divisor : Nat
  mode : SpiMode
  cs_mode : CsMode
  txmark : Nat
  rxmark : Nat
  delays : SpiDelays
deriving DecidableEq, Repr

/-- A shared device (`SpiSharedDevice` in `src/spi/shared_device.rs`): its own
cloned configuration plus its chip-select index `CS::CS_INDEX`. -/
structure SpiSharedDevice where
  config : SpiConfig
  csIndex : Nat
deriving DecidableEq, Repr

/-- The SPI controller registers touched by `SpiBus::configure`,
`start_frame` and `end_frame` (`src/spi/bus.rs`). -/
structure SpiRegs where
  sckdiv : Nat
  csid : Nat
  csmode : CsMode
  csdef : Nat
  sckmodePha : Bool
  sckmodePol : Bool
  fmtProto : Nat
  fmtEndianBig : Bool
  fmtDirRx : Bool
  fmtLen : Nat
  txmark : Nat
  rxmark : Nat
  delayCssck : Nat
  delaySckcs : Nat
  delayIntercs : Nat
  delayInterxfr : Nat
deriving DecidableEq, Repr

/-- Register accesses of the SPI controller, recorded as trace events.
The last three constructors are the FIFO accesses (`txdata`/`rxdata`). -/
inductive BusEvent
  | wSckdiv (v : Nat)
  | wCsid (v : Nat)
  | wCsmode (m : CsMode)
  | wCsdef
  | wSckmode (pha pol : Bool)
  | wFmt
  | wTxmark (v : Nat)
  | wRxmark (v : Nat)
  | wDelay0 (cssck sckcs : Nat)
  | wDelay1 (intercs interxfr : Nat)
  | rCsmode (m : CsMode)
  | rTxstat (full : Bool)
  | wTxdata (b : Nat)
  | rRxdata (v : Option Nat)
deriving DecidableEq, Repr

/-- Is the event a FIFO (`txdata`/`rxdata`) access? -/
def isFifoEvent : BusEvent → Bool
  | .rTxstat _ => true
  | .wTxdata _ => true
  | .rRxdata _ => true
  | _ => false

/-- `SpiBus::start_frame` (`src/spi/bus.rs` lines 89-93): read `csmode`;
unless it is `Off`, write it to `Hold`. Returns the new registers and the
trace of register accesses performed. -/
def startFrameRun (r : SpiRegs) : SpiRegs × List BusEvent :=
  if r.csmode ≠ CsMode.off then
    ({r with csmode := CsMode.hold},
      [BusEvent.rCsmode r.csmode, BusEvent.wCsmode CsMode.hold])
  else
    (r, [BusEvent.rCsmode r.csmode])

/-- `SpiBus::end_frame` (`src/spi/bus.rs` lines 96-100): read `csmode`;
unless it is `Off`, write it to `Auto`. -/
def endFrameRun (r : SpiRegs) : SpiRegs × List BusEvent :=
  if r.csmode ≠ CsMode.off then
    ({r with csmode := CsMode.auto},
      [BusEvent.rCsmode r.csmode, BusEvent.wCsmode CsMode.auto])
  else
    (r, [BusEvent.rCsmode r.csmode])

/-- `SpiBus::configure(config, cs_index)` (`src/spi/bus.rs` lines 32-81), write
for write: `sckdiv := config.clock_divisor`; `csid := index` only when
`cs_index` is `Some index`; `csmode := config.cs_mode`; reset `csdef`;
`sckmode` from the mode's phase/polarity; fixed `fmt` (single lane, MSB first,
rx direction, 8-bit); watermark and delay registers from the config; finally
`end_frame()` so chip select starts de-asserted. -/
def configureRun (config : SpiConfig) (cs_index : Option Nat) (r : SpiRegs) :
    SpiRegs × List BusEvent :=
  let r1 := {r with sckdiv := config.clock_divisor}
  let e1 := [BusEvent.wSckdiv config.clock_divisor]
  let (r2, e2) :=
    match cs_index with
    | some index => ({r1 with csid := index}, [BusEvent.wCsid index])
    | none => (r1, [])
  let r3 := {r2 with csmode := config.cs_mode}
  let e3 := [BusEvent.wCsmode config.cs_mode]
  let r4 := {r3 with csdef := 0}
  let e4 := [BusEvent.wCsdef]
  let phase := config.mode.phase == SpiPhase.captureOnSecondTransition
  let polarity := config.mode.polarity == SpiPolarity.idleHigh
  let r5 := {r4 with sckmodePha := phase, sckmodePol := polarity}
  let e5 := [BusEvent.wSckmode phase polarity]
  let r6 := {r5 with fmtProto := 0, fmtEndianBig := true, fmtDirRx := true, fmtLen := 8}
  let e6 := [BusEvent.wFmt]
  let r7 := {r6 with txmark := config.txmark}
  let e7 := [BusEvent.wTxmark config.txmark]
  let r8 := {r7 with rxmark := config.rxmark}
  let e8 := [BusEvent.wRxmark config.rxmark]
  let r9 := {r8 with delayCssck := config.delays.cssck, delaySckcs := config.delays.sckcs}
  let e9 := [BusEvent.wDelay0 config.delays.cssck config.delays.sckcs]
  let r10 := {r9 with delayIntercs := config.delays.intercs,
                      delayInterxfr := config.delays.interxfr}
  let e10 := [BusEvent.wDelay1 config.delays.intercs config.delays.interxfr]
  let (r11, e11) := endFrameRun r10
  (r11, e1 ++ e2 ++ e3 ++ e4 ++ e5 ++ e6 ++ e7 ++ e8 ++ e9 ++ e10 ++ e11)

/-- Register effect of `SpiBus::configure` (trace discarded). -/
def configure (config : SpiConfig) (cs_index : Option Nat) (r : SpiRegs) : SpiRegs :=
  (configureRun config cs_index r).1

/-- Register effect of `SpiBus::start_frame`. -/
def start_frame (r : SpiRegs) : SpiRegs :=
  (startFrameRun r).1

/-- Register effect of `SpiBus::end_frame`. -/
def end_frame (r : SpiRegs) : SpiRegs :=
  (endFrameRun r).1

/-- Hardware state threaded through event-level runs: the registers plus the
positions in the two FIFO observation schedules. -/
structure HwState where
  regs : SpiRegs
  txCnt : Nat
  rxCnt : Nat
deriving DecidableEq, Repr

/-- `SpiBus::wait_for_rxfifo` (`src/spi/bus.rs` lines 83-86): poll `rxdata`
until the empty bit is set, with fuel bounding the modelled prefix.  Each poll
consumes one `rx` observation and emits an `rRxdata` event. -/
def evWaitRxFifo (rx : Nat → Option Nat) : Nat → HwState → HwState × List BusEvent
  | 0, s => (s, [])
  | fuel + 1, s =>
    match rx s.rxCnt with
    | some b =>
      let (s', es) := evWaitRxFifo rx fuel {s with rxCnt := s.rxCnt + 1}
      (s', BusEvent.rRxdata (some b) :: es)
    | none => ({s with rxCnt := s.rxCnt + 1}, [BusEvent.rRxdata none])

/-- The transmit if-block of `SpiBus::transfer_in_place`
(`src/spi/bus.rs` lines 183-187): when `iwrite < words.len()`, read the
`txdata` full flag; if clear, push `words[iwrite]` and advance `iwrite`. -/
def evInPlaceTx (tx : Nat → Bool) (buf : List Nat) (iwrite : Nat) (s : HwState) :
    Nat × HwState × List BusEvent :=
  if iwrite < buf.length then
    let full := tx s.txCnt
    let s1 := {s with txCnt := s.txCnt + 1}
    if full then (iwrite, s1, [BusEvent.rTxstat true])
    else (iwrite + 1, s1, [BusEvent.rTxstat false, BusEvent.wTxdata (buf.getD iwrite 0)])
  else (iwrite, s, [])

/-- The receive if-block of `SpiBus::transfer_in_place`
(`src/spi/bus.rs` lines 189-195): when `iread < iwrite`, read `rxdata`; if not
empty, store the byte at `words[iread]` and advance `iread`. -/
def evInPlaceRx (rx : Nat → Option Nat) (buf : List Nat) (iwrite iread : Nat)
    (s : HwState) : List Nat × Nat × HwState × List BusEvent :=
  if iread < iwrite then
    let v := rx s.rxCnt
    let s1 := {s with rxCnt := s.rxCnt + 1}
    match v with
    | some b => (buf.set iread b, iread + 1, s1, [BusEvent.rRxdata v])
    | none => (buf, iread, s1, [BusEvent.rRxdata v])
  else (buf, iread, s, [])

/-- The `while iwrite < words.len() || iread < words.len()` loop of
`SpiBus::transfer_in_place` (`src/spi/bus.rs` lines 182-196), fuel-bounded. -/
def evInPlaceLoop (tx : Nat → Bool) (rx : Nat → Option Nat) :
    Nat → List Nat → Nat → Nat → HwState → HwState × List BusEvent
  | 0, _, _, _, s => (s, [])
  | fuel + 1, buf, iwrite, iread, s =>
    if iwrite < buf.length ∨ iread < buf.length then
      let (iw1, s1, e1) := evInPlaceTx tx buf iwrite s
      let (buf2, ir2, s2, e2) := evInPlaceRx rx buf iw1 iread s1
      let (s3, e3) := evInPlaceLoop tx rx fuel buf2 iw1 ir2 s2
      (s3, e1 ++ e2 ++ e3)
    else (s, [])

/-- The transmit if-block of `SpiBus::perform_transfer`
(`src/spi/bus.rs` lines 114-118): guarded by `iwrite < write.len()`; the pushed
byte is `write.get(iwrite).unwrap_or(&0)`. -/
def evRwTx (write : List Nat) (tx : Nat → Bool) (iwrite : Nat) (s : HwState) :
    Nat × HwState × List BusEvent :=
  if iwrite < write.length then
    let full := tx s.txCnt
    let s1 := {s with txCnt := s.txCnt + 1}
    if full then (iwrite, s1, [BusEvent.rTxstat true])
    else (iwrite + 1, s1,
      [BusEvent.rTxstat false, BusEvent.wTxdata ((write.get? iwrite).getD 0)])
  else (iwrite, s, [])

/-- The receive if-block of `SpiBus::perform_transfer`
(`src/spi/bus.rs` lines 120-128): when `iread < iwrite`, read `rxdata`; if not
empty, store into `read[iread]` when in range (`read.get_mut(iread)`), and
advance `iread` regardless. -/
def evRwRx (rx : Nat → Option Nat) (readBuf : List Nat) (iwrite iread : Nat)
    (s : HwState) : List Nat × Nat × HwState × List BusEvent :=
  if iread < iwrite then
    let v := rx s.rxCnt
    let s1 := {s with rxCnt := s.rxCnt + 1}
    match v with
    | some b =>
      ((if iread < readBuf.length then readBuf.set iread b else readBuf),
        iread + 1, s1, [BusEvent.rRxdata v])
    | none => (readBuf, iread, s1, [BusEvent.rRxdata v])
  else (readBuf, iread, s, [])

/-- The `while iwrite < bytes || iread < bytes` loop of
`SpiBus::perform_transfer` (`src/spi/bus.rs` lines 113-129), where
`bytes = max(read.len(), write.len())` is fixed at entry; fuel-bounded. -/
def evRwLoop (write : List Nat) (tx : Nat → Bool) (rx : Nat → Option Nat)
    (bytes : Nat) :
    Nat → List Nat → Nat → Nat → HwState → HwState × List BusEvent
  | 0, _, _, _, s => (s, [])
  | fuel + 1, readBuf, iwrite, iread, s =>
    if iwrite < bytes ∨ iread < bytes then
      let (iw1, s1, e1) := evRwTx write tx iwrite s
      let (buf2, ir2, s2, e2) := evRwRx rx readBuf iw1 iread s1
      let (s3, e3) := evRwLoop write tx rx bytes fuel buf2 iw1 ir2 s2
      (s3, e1 ++ e2 ++ e3)
    else (s, [])

/-- The transmit if-block of the write-iterator pump
(`src/spi.rs` `write_iter` lines 332-339): while the iterator still yields,
read the full flag; if clear, push the next byte and bump `read_count`, or
clear `has_data` when the iterator is exhausted. -/
def evIterTx (tx : Nat → Bool) (pending : List Nat) (hasData : Bool)
    (readCount : Nat) (s : HwState) :
    List Nat × Bool × Nat × HwState × List BusEvent :=
  if hasData then
    let full := tx s.txCnt
    let s1 := {s with txCnt := s.txCnt + 1}
    if full then (pending, hasData, readCount, s1, [BusEvent.rTxstat true])
    else
      match pending with
      | byte :: rest =>
        (rest, true, readCount + 1, s1,
          [BusEvent.rTxstat false, BusEvent.wTxdata byte])
      | [] => ([], false, readCount, s1, [BusEvent.rTxstat false])
  else (pending, hasData, readCount, s, [])

/-- The receive if-block of the write-iterator pump
(`src/spi.rs` `write_iter` lines 341-346): when `read_count > 0`, read
`rxdata` and discard; decrement `read_count` when a byte was present. -/
def evIterRx (rx : Nat → Option Nat) (readCount : Nat) (s : HwState) :
    Nat × HwState × List BusEvent :=
  if readCount > 0 then
    let v := rx s.rxCnt
    let s1 := {s with rxCnt := s.rxCnt + 1}
    match v with
    | some _ => (readCount - 1, s1, [BusEvent.rRxdata v])
    | none => (readCount, s1, [BusEvent.rRxdata v])
  else (readCount, s, [])

/-- The `while has_data || read_count > 0` loop of the write-iterator pump
(`src/spi.rs` lines 331-347), fuel-bounded. -/
def evIterLoop (tx : Nat → Bool) (rx : Nat → Option Nat) :
    Nat → List Nat → Bool → Nat → HwState → HwState × List BusEvent
  | 0, _, _, _, s => (s, [])
  | fuel + 1, pending, hasData, readCount, s =>
    if hasData = true ∨ readCount > 0 then
      let (p1, h1, rc1, s1, e1) := evIterTx tx pending hasData readCount s
      let (rc2, s2, e2) := evIterRx rx rc1 s1
      let (s3, e3) := evIterLoop tx rx fuel p1 h1 rc2 s2
      (s3, e1 ++ e2 ++ e3)
    else (s, [])

/-- Calls a device makes on the underlying `SpiBus`, at the granularity of the
bus's public methods.  The pump calls carry their buffers; `busRead`/`busSend`
are the single-word `FullDuplex` operations. -/
inductive BusCall
  | configureBus (config : SpiConfig) (cs_index : Option Nat)
  | startFrame
  | endFrame
  | busRead
  | busSend (byte : Nat)
  | pumpTransfer (words : List Nat)
  | pumpWrite (words : List Nat)
  | pumpWriteIter (words : List Nat)
  | pumpExec (ops : List (Bool × List Nat))
deriving DecidableEq, Repr

/-- Single-word `FullDuplex::read` on the bus: one `rxdata` read.
Modelled from the spec: the `FullDuplex` impl for `SpiBus` is not under
`src/`; it matches the in-src legacy `Spi` impl (`src/spi.rs` lines 228-236),
which reads `rxdata` once and reports would-block when empty. -/
def evBusRead (rx : Nat → Option Nat) (s : HwState) : HwState × List BusEvent :=
  ({s with rxCnt := s.rxCnt + 1}, [BusEvent.rRxdata (rx s.rxCnt)])

/-- Single-word `FullDuplex::send` on the bus: read the `txdata` full flag,
and push the byte when the FIFO is not full.
Modelled from the spec: the `FullDuplex` impl for `SpiBus` is not under
`src/`; it matches the in-src legacy `Spi` impl (`src/spi.rs` lines 238-247). -/
def evBusSend (tx : Nat → Bool) (byte : Nat) (s : HwState) : HwState × List BusEvent :=
  let full := tx s.txCnt
  let s1 := {s with txCnt := s.txCnt + 1}
  if full then (s1, [BusEvent.rTxstat true])
  else (s1, [BusEvent.rTxstat false, BusEvent.wTxdata byte])

/-- `SpiBus` transfer entry point (eh-0.2 `Transfer`, in place): drain the
receive FIFO, then run the `transfer_in_place` loop (`src/spi/bus.rs`
lines 175-199). -/
def evPumpTransfer (tx : Nat → Bool) (rx : Nat → Option Nat) (fuel : Nat)
    (words : List Nat) (s : HwState) : HwState × List BusEvent :=
  let (s1, e1) := evWaitRxFifo rx fuel s
  let (s2, e2) := evInPlaceLoop tx rx fuel words 0 0 s1
  (s2, e1 ++ e2)

/-- `SpiBus::write(words)` = `perform_transfer(&mut [], words)`
(`src/spi/bus.rs` lines 162-164): rx drain, then the two-buffer pump with an
empty read buffer. -/
def evPumpWrite (tx : Nat → Bool) (rx : Nat → Option Nat) (fuel : Nat)
    (words : List Nat) (s : HwState) : HwState × List BusEvent :=
  let (s1, e1) := evWaitRxFifo rx fuel s
  let (s2, e2) := evRwLoop words tx rx (max ([] : List Nat).length words.length) fuel [] 0 0 s1
  (s2, e1 ++ e2)

/-- `SpiBus::write_iter(words)`: rx drain, then the write-iterator pump.
Modelled from the spec: the `WriteIter` impl for `SpiBus` is not under `src/`;
it matches the in-src legacy `Spi::write_iter` (`src/spi.rs` lines 318-352). -/
def evPumpWriteIter (tx : Nat → Bool) (rx : Nat → Option Nat) (fuel : Nat)
    (words : List Nat) (s : HwState) : HwState × List BusEvent :=
  let (s1, e1) := evWaitRxFifo rx fuel s
  let (s2, e2) := evIterLoop tx rx fuel words true 0 s1
  (s2, e1 ++ e2)

/-- `SpiBus::exec(operations)` (eh-0.2 `Transactional` body).
Modelled from the spec: `exec` for `SpiBus` is not under `src/`; per §4.1/§4.2
the Bus exposes only the raw pumps and frame bracketing is the device's job, so
each `Operation::Write`/`Operation::Transfer` runs the corresponding pump.
An operation is `(isWrite, words)`. -/
def evPumpExec (tx : Nat → Bool) (rx : Nat → Option Nat) (fuel : Nat) :
    List (Bool × List Nat) → HwState → HwState × List BusEvent
  | [], s => (s, [])
  | (isWrite, words) :: rest, s =>
    let (s1, e1) :=
      if isWrite then evPumpWrite tx rx fuel words s
      else evPumpTransfer tx rx fuel words s
    let (s2, e2) := evPumpExec tx rx fuel rest s1
    (s2, e1 ++ e2)

/-- Interpret one bus call as its register-access trace. -/
def callRun (tx : Nat → Bool) (rx : Nat → Option Nat) (fuel : Nat)
    (s : HwState) : BusCall → HwState × List BusEvent
  | .configureBus config ci =>
    let (r', es) := configureRun config ci s.regs
    ({s with regs := r'}, es)
  | .startFrame =>
    let (r', es) := startFrameRun s.regs
    ({s with regs := r'}, es)
  | .endFrame =>
    let (r', es) := endFrameRun s.regs
    ({s with regs := r'}, es)
  | .busRead => evBusRead rx s
  | .busSend b => evBusSend tx b s
  | .pumpTransfer ws => evPumpTransfer tx rx fuel ws s
  | .pumpWrite ws => evPumpWrite tx rx fuel ws s
  | .pumpWriteIter ws => evPumpWriteIter tx rx fuel ws s
  | .pumpExec ops => evPumpExec tx rx fuel ops s

/-- Interpret a sequence of bus calls, concatenating their traces in order. -/
def runCalls (tx : Nat → Bool) (rx : Nat → Option Nat) (fuel : Nat) :
    HwState → List BusCall → HwState × List BusEvent
  | s, [] => (s, [])
  | s, c :: cs =>
    let (s1, e1) := callRun tx rx fuel s c
    let (s2, e2) := runCalls tx rx fuel s1 cs
    (s2, e1 ++ e2)

/-- The five `SpiSharedDevice` operations (`src/spi/shared_device.rs`). -/
inductive SharedOp
  | rd
  | send (byte : Nat)
  | xfer (words : List Nat)
  | wr (words : List Nat)
  | wrIter (words : List Nat)
deriving DecidableEq, Repr

/-- The bus calls a `SpiSharedDevice` operation makes, in source order
(`src/spi/shared_device.rs`): every operation first calls
`bus.configure(&self.config, Some(CS::CS_INDEX))`; the buffer operations then
bracket their pump with `start_frame`/`end_frame`, while the single-word
`try_read`/`try_send` call the bus's `FullDuplex` methods directly. -/
def sharedOpCalls (dev : SpiSharedDevice) : SharedOp → List BusCall
  | .rd => [BusCall.configureBus dev.config (some dev.csIndex), BusCall.busRead]
  | .send b => [BusCall.configureBus dev.config (some dev.csIndex), BusCall.busSend b]
  | .xfer ws =>
    [BusCall.configureBus dev.config (some dev.csIndex), BusCall.startFrame,
      BusCall.pumpTransfer ws, BusCall.endFrame]
  | .wr ws =>
    [BusCall.configureBus dev.config (some dev.csIndex), BusCall.startFrame,
      BusCall.pumpWrite ws, BusCall.endFrame]
  | .wrIter ws =>
    [BusCall.configureBus dev.config (some dev.csIndex), BusCall.startFrame,
      BusCall.pumpWriteIter ws, BusCall.endFrame]

/-- A shared-device operation as a list of atomic blocks: the whole body of
each operation in `src/spi/shared_device.rs` sits inside a single
`interrupt::free` critical section, so each operation is exactly one block. -/
def sharedOpProg (dev : SpiSharedDevice) (op : SharedOp) : List (List BusCall) :=
  [sharedOpCalls dev op]

/-- The register-access trace of one shared-device operation, starting from
registers `regs` and fresh schedule positions. -/
def sharedOpEvents (dev : SpiSharedDevice) (op : SharedOp) (tx : Nat → Bool)
    (rx : Nat → Option Nat) (fuel : Nat) (regs : SpiRegs) : List BusEvent :=
  (runCalls tx rx fuel ⟨regs, 0, 0⟩ (sharedOpCalls dev op)).2

/-- Predicate: is the call `startFrame`? -/
def isStartFrameCall : BusCall → Bool
  | .startFrame => true
  | _ => false

/-- Predicate: is the call `endFrame`? -/
def isEndFrameCall : BusCall → Bool
  | .endFrame => true
  | _ => false

/-- The seven result-returning transaction methods: the four of
`SpiExclusiveDevice` (`src/spi/exclusive_device.rs`) and the three framed ones
of `SpiSharedDevice` (`src/spi/shared_device.rs`). -/
inductive TransactionOp
  | exclTransfer (words : List Nat)
  | exclWrite (words : List Nat)
  | exclWriteIter (words : List Nat)
  | exclExec (ops : List (Bool × List Nat))
  | sharedTransfer (dev : SpiSharedDevice) (words : List Nat)
  | sharedWrite (dev : SpiSharedDevice) (words : List Nat)
  | sharedWriteIter (dev : SpiSharedDevice) (words : List Nat)

/-- Bus calls and returned result of a transaction method, mirroring the
source pattern `start_frame(); let result = body; end_frame(); result`
(`src/spi/exclusive_device.rs` lines 62-68, 78-84, 94-103, 113-119 and
`src/spi/shared_device.rs` lines 80-92, 103-115, 126-141): the body's result
`bodyResult` — success or error — is captured before `end_frame` runs and
returned unchanged afterwards. -/
def transactionRun (E : Type) (op : TransactionOp) (bodyResult : Except E Unit) :
    List BusCall × Except E Unit :=
  match op with
  | .exclTransfer ws =>
    ([BusCall.startFrame, BusCall.pumpTransfer ws, BusCall.endFrame], bodyResult)
  | .exclWrite ws =>
    ([BusCall.startFrame, BusCall.pumpWrite ws, BusCall.endFrame], bodyResult)
  | .exclWriteIter ws =>
    ([BusCall.startFrame, BusCall.pumpWriteIter ws, BusCall.endFrame], bodyResult)
  | .exclExec ops =>
    ([BusCall.startFrame, BusCall.pumpExec ops, BusCall.endFrame], bodyResult)
  | .sharedTransfer dev ws =>
    ([BusCall.configureBus dev.config (some dev.csIndex), BusCall.startFrame,
      BusCall.pumpTransfer ws, BusCall.endFrame], bodyResult)
  | .sharedWrite dev ws =>
    ([BusCall.configureBus dev.config (some dev.csIndex), BusCall.startFrame,
      BusCall.pumpWrite ws, BusCall.endFrame], bodyResult)
  | .sharedWriteIter dev ws =>
    ([BusCall.configureBus dev.config (some dev.csIndex), BusCall.startFrame,
      BusCall.pumpWriteIter ws, BusCall.endFrame], bodyResult)

/-- The registers written by the legacy `Spi::new` (`src/spi.rs` lines 116-158). -/
structure LegacyRegs where
  div : Nat
  csid : Nat
  csmode : Nat
  csdef : Nat
  phase : Bool
  polarity : Bool
  fmtProto : Nat
  fmtEndianMsb : Bool
  fmtDirRx : Bool
  fmtLen : Nat
  txmark : Nat
  rxmark : Nat
  delay0 : Nat
  delay1 : Nat
deriving DecidableEq, Repr

/-- Legacy `Spi::new(spi, pins, mode, freq, clocks)` (`src/spi.rs` lines
116-158): `div := clocks.tlclk() / (2 * freq) - 1`; when `PINS::CS_INDEX` is
`Some`, write `csid` and `csmode := 2` (auto per frame), else `csmode := 3`
(off); reset `csdef`; mode bits; fixed `fmt`; `txmark := 1`; `rxmark := 0`;
reset the delay registers. -/
def spiNew (mode : SpiMode) (freq tlclk : Nat) (csIndex : Option Nat)
    (r : LegacyRegs) : LegacyRegs :=
  let r1 := {r with div := tlclk / (2 * freq) - 1}
  let r2 :=
    match csIndex with
    | some i => {r1 with csid := i, csmode := 2}
    | none => {r1 with csmode := 3}
  let r3 := {r2 with csdef := 0}
  let r4 := {r3 with phase := mode.phase == SpiPhase.captureOnSecondTransition,
                     polarity := mode.polarity == SpiPolarity.idleHigh}
  let r5 := {r4 with fmtProto := 0, fmtEndianMsb := true, fmtDirRx := true, fmtLen := 8}
  {r5 with txmark := 1, rxmark := 0, delay0 := 0, delay1 := 0}

/-- Modelled from the spec: the `SpiConfig` constructor's clock-divisor
derivation lives in the configuration file absent from `src/`; per §6 the
Shared/Bus `configure` path derives it as `base_clock / target_clock − 1`. -/
def spiConfigClockDivisor (tlclk freq : Nat) : Nat :=
  tlclk / freq - 1

/-- Interleaving of two sequences (used with atomic critical-section blocks):
`Interleave xs ys zs` holds when `zs` merges `xs` and `ys` keeping each one's
internal order. -/
inductive Interleave : List α → List α → List α → Prop
  | nil : Interleave [] [] []
  | left {xs ys zs : List α} (x : α) :
      Interleave xs ys zs → Interleave (x :: xs) ys (x :: zs)
  | right {xs ys zs : List α} (y : α) :
      Interleave xs ys zs → Interleave xs (y :: ys) (y :: zs)

/-- Tag every event of a trace with a device identifier. -/
def tagTrace (d : Nat) (es : List BusEvent) : List (Nat × BusEvent) :=
  es.map (fun e => (d, e))

/-- State of the single-buffer (in-place) byte pump: the buffer and the two
cursors, plus the schedule positions.  This is the loop state shared — with
textually identical bodies — by `SpiBus::transfer_in_place`
(`src/spi/bus.rs` lines 175-199), the legacy blocking `Spi::transfer`
(`src/spi.rs` lines 253-281) and `AsyncTransferFuture::poll`
(`src/spi.rs` lines 393-424). -/
structure TState where
  buf : List Nat
  iwrite : Nat
  iread : Nat
  txCnt : Nat
  rxCnt : Nat
deriving DecidableEq, Repr

/-- The transmit if-block of the in-place pump: when `iwrite < len`, read the
full flag; if clear, push `buf[iwrite]` and advance `iwrite`. -/
def txStep (tx : Nat → Bool) (s : TState) : TState :=
  if s.iwrite < s.buf.length then
    if tx s.txCnt then {s with txCnt := s.txCnt + 1}
    else {s with txCnt := s.txCnt + 1, iwrite := s.iwrite + 1}
  else s

/-- The receive if-block of the in-place pump: when `iread < iwrite`, read
`rxdata`; if a byte is present store it at `buf[iread]` and advance `iread`. -/
def rxStepT (rx : Nat → Option Nat) (s : TState) : TState :=
  if s.iread < s.iwrite then
    match rx s.rxCnt with
    | some b =>
      {s with rxCnt := s.rxCnt + 1, buf := s.buf.set s.iread b, iread := s.iread + 1}
    | none => {s with rxCnt := s.rxCnt + 1}
  else s

/-- One iteration of the in-place pump loop body: the transmit if-block
followed by the receive if-block. -/
def inPlaceStep (tx : Nat → Bool) (rx : Nat → Option Nat) (s : TState) : TState :=
  rxStepT rx (txStep tx s)

/-- The `while iwrite < len || iread < len` guard of the in-place pump. -/
def tCondB (s : TState) : Bool :=
  decide (s.iwrite < s.buf.length) || decide (s.iread < s.buf.length)

/-- The blocking in-place pump loop (`Spi::transfer`, `transfer_in_place`),
with fuel: `none` means the fuel ran out before the loop condition turned
false. -/
def blockingTransferRun (tx : Nat → Bool) (rx : Nat → Option Nat) :
    Nat → TState → Option TState
  | 0, s => if tCondB s then none else some s
  | fuel + 1, s =>
    if tCondB s then blockingTransferRun tx rx fuel (inPlaceStep tx rx s)
    else some s

/-- Result of one `poll` call of `AsyncTransferFuture`. -/
inductive PollRes
  | pending (s : TState)
  | ready (s : TState)
deriving DecidableEq, Repr

/-- `AsyncTransferFuture::poll` (`src/spi.rs` lines 393-423): run the in-place
pump loop, but on observing an empty receive FIFO while `iread < iwrite`
return `Poll::Pending` (after consuming the `rxdata` read); when the loop
condition turns false return `Poll::Ready` (the trailing `csmode` touch-up is
not part of the pump state).  `none` means the fuel ran out while the loop was
still spinning. -/
def pollLoop (tx : Nat → Bool) (rx : Nat → Option Nat) :
    Nat → TState → Option PollRes
  | 0, _ => none
  | fuel + 1, s =>
    if tCondB s then
      let s1 := txStep tx s
      if s1.iread < s1.iwrite then
        match rx s1.rxCnt with
        | some b =>
          pollLoop tx rx fuel
            {s1 with rxCnt := s1.rxCnt + 1, buf := s1.buf.set s1.iread b,
                     iread := s1.iread + 1}
        | none => some (PollRes.pending {s1 with rxCnt := s1.rxCnt + 1})
      else pollLoop tx rx fuel s1
    else some (PollRes.ready s)

/-- Repeatedly poll an `AsyncTransferFuture` until it reports `Ready`, giving
each poll call its own fuel from `fuels`: the state carried from a `Pending`
poll into the next call is exactly the captured `iwrite`/`iread`/buffer of the
suspended transfer object. -/
def pollDrive (tx : Nat → Bool) (rx : Nat → Option Nat) :
    List Nat → TState → Option TState
  | [], _ => none
  | fuel :: rest, s =>
    match pollLoop tx rx fuel s with
    | none => none
    | some (PollRes.ready s') => some s'
    | some (PollRes.pending s') => pollDrive tx rx rest s'

/-- State of the two-buffer pump `SpiBus::perform_transfer`
(`src/spi/bus.rs` lines 103-132): the (mutable) read buffer, the cursors and
the schedule positions; the write buffer is immutable and passed separately. -/
structure PTState where
  readBuf : List Nat
  iwrite : Nat
  iread : Nat
  txCnt : Nat
  rxCnt : Nat
deriving DecidableEq, Repr

/-- The transmit if-block of `perform_transfer` (`src/spi/bus.rs` lines
114-118): guarded by `iwrite < write.len()`; the byte pushed is
`write.get(iwrite).unwrap_or(&0)`. -/
def ptTxStep (write : List Nat) (tx : Nat → Bool) (s : PTState) : PTState :=
  if s.iwrite < write.length then
    if tx s.txCnt then {s with txCnt := s.txCnt + 1}
    else {s with txCnt := s.txCnt + 1, iwrite := s.iwrite + 1}
  else s

/-- The receive if-block of `perform_transfer` (`src/spi/bus.rs` lines
120-128): when `iread < iwrite`, read `rxdata`; if a byte is present, store it
into `read[iread]` when in range and advance `iread`. -/
def ptRxStep (rx : Nat → Option Nat) (s : PTState) : PTState :=
  if s.iread < s.iwrite then
    match rx s.rxCnt with
    | some b =>
      {s with rxCnt := s.rxCnt + 1,
              readBuf := if s.iread < s.readBuf.length
                         then s.readBuf.set s.iread b else s.readBuf,
              iread := s.iread + 1}
    | none => {s with rxCnt := s.rxCnt + 1}
  else s

/-- One iteration of the `perform_transfer` loop body. -/
def ptStep (write : List Nat) (tx : Nat → Bool) (rx : Nat → Option Nat)
    (s : PTState) : PTState :=
  ptRxStep rx (ptTxStep write tx s)

/-- The `while iwrite < bytes || iread < bytes` guard of `perform_transfer`,
with `bytes = max(read.len(), write.len())`. -/
def ptCondB (write : List Nat) (s : PTState) : Bool :=
  decide (s.iwrite < max s.readBuf.length write.length) ||
    decide (s.iread < max s.readBuf.length write.length)

/-- The blocking `perform_transfer` loop with fuel: `none` means the fuel ran
out before the loop condition turned false. -/
def performTransferRun (write : List Nat) (tx : Nat → Bool)
    (rx : Nat → Option Nat) : Nat → PTState → Option PTState
  | 0, s => if ptCondB write s then none else some s
  | fuel + 1, s =>
    if ptCondB write s then
      performTransferRun write tx rx fuel (ptStep write tx rx s)
    else some s

/-- Initial pump state over a buffer: cursors and schedule positions at 0. -/
def ptInit (readBuf : List Nat) : PTState :=
  ⟨readBuf, 0, 0, 0, 0⟩

/-- Initial in-place pump state over a buffer. -/
def tInit (buf : List Nat) : TState :=
  ⟨buf, 0, 0, 0, 0⟩

/-- A concrete register state used for instantiating theorems. -/
def regsInit : SpiRegs :=
  ⟨0, 0, CsMode.auto, 0, false, false, 0, false, false, 0, 0, 0, 0, 0, 0, 0⟩

/-- A concrete configuration used for instantiating theorems. -/
def cfgSample : SpiConfig :=
  ⟨0, ⟨SpiPhase.captureOnFirstTransition, SpiPolarity.idleLow⟩, CsMode.auto, 1, 0,
    ⟨0, 0, 0, 0⟩⟩

/-- A second concrete configuration (different clock divisor and mode). -/
def cfgSample2 : SpiConfig :=
  ⟨7, ⟨SpiPhase.captureOnSecondTransition, SpiPolarity.idleHigh⟩, CsMode.auto, 1, 0,
    ⟨1, 1, 1, 1⟩⟩

/-- Two concrete shared devices on chip-select lines 0 and 1. -/
def devSample0 : SpiSharedDevice := ⟨cfgSample, 0⟩

/-- See `devSample0`. -/
def devSample1 : SpiSharedDevice := ⟨cfgSample2, 1⟩

/-- C8: `start_frame` and `end_frame` are no-ops (every register unchanged)
when the chip-select mode register reads `Off`; otherwise `start_frame` writes
the mode register to `Hold` and `end_frame` writes it to `Auto`, touching no
other register. -/
theorem c8_frame_ops_effect (r : SpiRegs) :
    start_frame r = (if r.csmode = CsMode.off then r else {r with csmode := CsMode.hold}) ∧
    end_frame r = (if r.csmode = CsMode.off then r else {r with csmode := CsMode.auto}) := by
  constructor <;> by_cases h : r.csmode = CsMode.off <;>
    simp [start_frame, end_frame, startFrameRun, endFrameRun, h]

/-- C6 (counterexample): the claim says `configure` writes the chip-select
mode register `Off` whenever `cs_index` is `None`; but with a configuration
whose `cs_mode` is `Auto` and `cs_index = None`, the register ends up not
`Off` — `configure` takes the mode from `config.cs_mode`, not from
`cs_index`. -/
theorem c6_csmode_not_from_cs_index :
    (configure cfgSample none regsInit).csmode = CsMode.auto ∧
    (CsMode.auto == CsMode.off) = false := by
  decide

/-- C6 (amended): `configure(config, cs_index)` writes the `csid` register
only when `cs_index` is `Some` (leaving it unchanged when `None`), and writes
the chip-select mode register from the configuration's own `cs_mode` field —
ending as `Off` when `config.cs_mode` is `Off` and as `Auto` otherwise (the
final internal `end_frame`) — independently of `cs_index`. -/
theorem c6_configure_csid_csmode (config : SpiConfig) (ci : Option Nat) (r : SpiRegs) :
    (configure config ci r).csid = (match ci with | some i => i | none => r.csid) ∧
    (configure config ci r).csmode =
      (if config.cs_mode = CsMode.off then CsMode.off else CsMode.auto) := by
  cases ci <;> by_cases h : config.cs_mode = CsMode.off <;>
    simp [configure, configureRun, endFrameRun, h]

/-- C7: the legacy `Spi::new` configuration path writes the clock divisor
register as `base_clock / (2 × target_clock) − 1`, while the Shared/Bus
`configure` path writes `sckdiv` from the `SpiConfig` divisor, which is
derived as `base_clock / target_clock − 1` — the two configuration flavors
differ by a factor of two in the target clock. -/
theorem c7_clock_divisor_formulas (mode : SpiMode) (freq tlclk : Nat)
    (ci : Option Nat) (r : LegacyRegs) (config : SpiConfig) (ci' : Option Nat)
    (r' : SpiRegs) :
    (spiNew mode freq tlclk ci r).div = tlclk / (2 * freq) - 1 ∧
    (configure {config with clock_divisor := spiConfigClockDivisor tlclk freq} ci' r').sckdiv
      = tlclk / freq - 1 := by
  constructor
  · cases ci <;> simp [spiNew]
  · cases ci' <;> by_cases h : config.cs_mode = CsMode.off <;>
      simp [configure, configureRun, endFrameRun, spiConfigClockDivisor, h]

theorem ptTxStep_iread (write : List Nat) (tx : Nat → Bool) (s : PTState) :
    (ptTxStep write tx s).iread = s.iread := by
  unfold ptTxStep; split_ifs <;> rfl

theorem ptTxStep_iwrite_ge (write : List Nat) (tx : Nat → Bool) (s : PTState) :
    s.iwrite ≤ (ptTxStep write tx s).iwrite := by
  unfold ptTxStep; split_ifs <;> simp

theorem ptRxStep_le (rx : Nat → Option Nat) (s : PTState)
    (h : s.iread ≤ s.iwrite) : (ptRxStep rx s).iread ≤ (ptRxStep rx s).iwrite := by
  unfold ptRxStep
  by_cases h1 : s.iread < s.iwrite
  · rw [if_pos h1]
    rcases hrx : rx s.rxCnt with _ | b <;> simp [hrx] <;> omega
  · rw [if_neg h1]; exact h

theorem ptStep_le (write : List Nat) (tx : Nat → Bool) (rx : Nat → Option Nat)
    (s : PTState) (h : s.iread ≤ s.iwrite) :
    (ptStep write tx rx s).iread ≤ (ptStep write tx rx s).iwrite := by
  have h1 : (ptTxStep write tx s).iread ≤ (ptTxStep write tx s).iwrite := by
    have := ptTxStep_iwrite_ge write tx s
    rw [ptTxStep_iread]; omega
  exact ptRxStep_le rx _ h1

theorem txStep_iread (tx : Nat → Bool) (s : TState) :
    (txStep tx s).iread = s.iread := by
  unfold txStep; split_ifs <;> rfl

theorem txStep_iwrite_ge (tx : Nat → Bool) (s : TState) :
    s.iwrite ≤ (txStep tx s).iwrite := by
  unfold txStep; split_ifs <;> simp

theorem rxStepT_le (rx : Nat → Option Nat) (s : TState)
    (h : s.iread ≤ s.iwrite) : (rxStepT rx s).iread ≤ (rxStepT rx s).iwrite := by
  unfold rxStepT
  split_ifs with h1
  · rcases hrx : rx s.rxCnt with _ | b <;> simp [hrx] <;> omega
  · simpa

theorem inPlaceStep_le (tx : Nat → Bool) (rx : Nat → Option Nat)
    (s : TState) (h : s.iread ≤ s.iwrite) :
    (inPlaceStep tx rx s).iread ≤ (inPlaceStep tx rx s).iwrite := by
  have h1 : (txStep tx s).iread ≤ (txStep tx s).iwrite := by
    have := txStep_iwrite_ge tx s
    rw [txStep_iread]; omega
  exact rxStepT_le rx _ h1

theorem ptStep_iter_le (write : List Nat) (tx : Nat → Bool) (rx : Nat → Option Nat)
    (k : Nat) (s : PTState) (h : s.iread ≤ s.iwrite) :
    ((ptStep write tx rx)^[k] s).iread ≤ ((ptStep write tx rx)^[k] s).iwrite := by
  induction k generalizing s with
  | zero => simpa
  | succ n ih =>
    rw [Function.iterate_succ_apply]
    exact ih _ (ptStep_le write tx rx s h)

theorem inPlaceStep_iter_le (tx : Nat → Bool) (rx : Nat → Option Nat)
    (k : Nat) (s : TState) (h : s.iread ≤ s.iwrite) :
    ((inPlaceStep tx rx)^[k] s).iread ≤ ((inPlaceStep tx rx)^[k] s).iwrite := by
  induction k generalizing s with
  | zero => simpa
  | succ n ih =>
    rw [Function.iterate_succ_apply]
    exact ih _ (inPlaceStep_le tx rx s h)

/-- C4: throughout every execution of the byte pump — both
`SpiBus::perform_transfer` and `SpiBus::transfer_in_place` — the invariant
`iread ≤ iwrite` holds at every loop iteration: the pump never pops a receive
byte whose transmit byte has not been pushed. -/
theorem c4_pump_cursor_invariant (write readBuf words : List Nat)
    (tx : Nat → Bool) (rx : Nat → Option Nat) (k : Nat) :
    ((ptStep write tx rx)^[k] (ptInit readBuf)).iread ≤
      ((ptStep write tx rx)^[k] (ptInit readBuf)).iwrite ∧
    ((inPlaceStep tx rx)^[k] (tInit words)).iread ≤
      ((inPlaceStep tx rx)^[k] (tInit words)).iwrite :=
  ⟨ptStep_iter_le write tx rx k (ptInit readBuf) (Nat.le_refl 0),
   inPlaceStep_iter_le tx rx k (tInit words) (Nat.le_refl 0)⟩

/-- C5 (code bug, evaluated at the failing input): with an empty write buffer
and a one-byte read buffer — i.e. `SpiBus::read` on a non-empty buffer — the
`perform_transfer` loop body never changes the state (the transmit branch is
guarded by `iwrite < write.len()`, so the zero filler of
`write.get(iwrite).unwrap_or(&0)` is never pushed), the loop condition stays
true, and the blocking loop diverges for every amount of fuel: `read` never
completes. -/
theorem c5_read_only_pump_stalls (b : Nat) (tx : Nat → Bool)
    (rx : Nat → Option Nat) (k fuel : Nat) :
    (ptStep [] tx rx)^[k] (ptInit [b]) = ptInit [b] ∧
    ptCondB [] (ptInit [b]) = true ∧
    performTransferRun [] tx rx fuel (ptInit [b]) = none := by
  have hfix : ptStep [] tx rx (ptInit [b]) = ptInit [b] := by
    simp [ptStep, ptTxStep, ptRxStep, ptInit]
  have hcond : ptCondB [] (ptInit [b]) = true := by simp [ptCondB, ptInit]
  refine ⟨Function.iterate_fixed hfix k, hcond, ?_⟩
  induction fuel with
  | zero => simp [performTransferRun, hcond]
  | succ n ih => simpa [performTransferRun, hcond, hfix] using ih

/-- C9 (code bug, evaluated at the failing input): when the transmit-full
flag reads set on every status poll and the future's cursors are at
`iwrite = iread = 0` over a one-byte buffer, `AsyncTransferFuture::poll`
spins in its `while` loop forever — for every fuel bound the loop neither
returns `Ready` nor `Pending`, contradicting the claim that each poll performs
a bounded number of FIFO interactions and then returns. -/
theorem c9_poll_spins_on_full_tx (b : Nat) (rx : Nat → Option Nat)
    (fuel c r : Nat) :
    pollLoop (fun _ => true) rx fuel ⟨[b], 0, 0, c, r⟩ = none := by
  induction fuel generalizing c with
  | zero => rfl
  | succ n ih =>
    have hcond : tCondB ⟨[b], 0, 0, c, r⟩ = true := by simp [tCondB]
    have htx : txStep (fun _ => true) ⟨[b], 0, 0, c, r⟩ = ⟨[b], 0, 0, c + 1, r⟩ := by
      simp [txStep]
    simp only [pollLoop, hcond, if_true, htx]
    simpa using ih (c + 1)

theorem configure_no_fifo (config : SpiConfig) (ci : Option Nat) (r : SpiRegs) :
    ((configureRun config ci r).2.all fun e => !(isFifoEvent e)) = true := by
  cases ci <;> by_cases h : config.cs_mode = CsMode.off <;>
    simp [configureRun, endFrameRun, isFifoEvent, h]

/-- C1: every `SpiSharedDevice` operation (`try_read`, `try_send`,
`try_transfer`, `try_write`, `try_write_iter`) consists of a single critical
section whose very first bus call is `configure(&self.config,
Some(CS::CS_INDEX))` — the device's own stored configuration and chip-select
index — and the configure step performs no FIFO access, so in the operation's
register trace every FIFO access (and the frame start) comes strictly after
the complete reconfiguration. -/
theorem c1_shared_reconfigures_first (dev : SpiSharedDevice) (op : SharedOp)
    (tx : Nat → Bool) (rx : Nat → Option Nat) (fuel : Nat) (regs : SpiRegs) :
    sharedOpProg dev op = [sharedOpCalls dev op] ∧
    (sharedOpCalls dev op).get? 0 =
      some (BusCall.configureBus dev.config (some dev.csIndex)) ∧
    ((configureRun dev.config (some dev.csIndex) regs).2.all
      fun e => !(isFifoEvent e)) = true ∧
    ∃ rest, sharedOpEvents dev op tx rx fuel regs =
      (configureRun dev.config (some dev.csIndex) regs).2 ++ rest := by
  refine ⟨rfl, ?_, configure_no_fifo _ _ _, ?_⟩
  · cases op <;> rfl
  · cases op <;> exact ⟨_, rfl⟩

/-- C3: every transaction method of `SpiExclusiveDevice` (`transfer`, `write`,
`write_iter`, `exec`) and every framed operation of `SpiSharedDevice`
(`try_transfer`, `try_write`, `try_write_iter`) makes exactly one
`start_frame` call and exactly one `end_frame` call on the underlying bus,
with the `end_frame` after the `start_frame`, and the body's result — success
or error — is returned unchanged (the `end_frame` runs before the result is
propagated, on both paths). -/
theorem c3_frame_bracketing (E : Type) (op : TransactionOp) (res : Except E Unit) :
    ((transactionRun E op res).1.countP isStartFrameCall = 1) ∧
    ((transactionRun E op res).1.countP isEndFrameCall = 1) ∧
    (∃ i j, i < j ∧ (transactionRun E op res).1.get? i = some BusCall.startFrame ∧
      (transactionRun E op res).1.get? j = some BusCall.endFrame) ∧
    (transactionRun E op res).2 = res := by
  cases op <;>
    exact ⟨by simp [transactionRun, isStartFrameCall, isEndFrameCall, List.countP_cons],
           by simp [transactionRun, isStartFrameCall, isEndFrameCall, List.countP_cons],
           (by first
             | exact ⟨0, 2, by omega, rfl, rfl⟩
             | exact ⟨1, 3, by omega, rfl, rfl⟩),
           rfl⟩

theorem interleave_left_nil {α : Type} {ys zs : List α}
    (h : Interleave ([] : List α) ys zs) : zs = ys := by
  generalize hx : ([] : List α) = xs at h
  induction h with
  | nil => rfl
  | left x h ih => cases hx
  | right y h ih => rw [ih hx]

theorem interleave_right_nil {α : Type} {xs zs : List α}
    (h : Interleave xs ([] : List α) zs) : zs = xs := by
  generalize hy : ([] : List α) = ys at h
  induction h with
  | nil => rfl
  | left x h ih => rw [ih hy]
  | right y h ih => cases hy

theorem interleave_pair {α : Type} {a b : α} {zs : List α}
    (h : Interleave [a] [b] zs) : zs = [a, b] ∨ zs = [b, a] := by
  cases h with
  | left x h => left; rw [interleave_left_nil h]
  | right y h => right; rw [interleave_right_nil h]

theorem no_split_first (l1 l2 : List (Nat × BusEvent)) (d1 d2 : Nat)
    (h1 : ∀ e ∈ l1, e.1 = d1) (h2 : ∀ e ∈ l2, e.1 = d2) (hne : d1 ≠ d2)
    (j k : Nat) (hjk : j < k)
    (hk : ((l1 ++ l2)[k]?).map Prod.fst = some d1) :
    ((l1 ++ l2)[j]?).map Prod.fst = some d1 := by
  have hkl : k < l1.length := by
    by_contra hge
    push_neg at hge
    rw [List.getElem?_append_right hge] at hk
    cases he : l2[k - l1.length]? with
    | none => rw [he] at hk; simp at hk
    | some e =>
      rw [he] at hk
      simp at hk
      exact hne ((hk.symm.trans (h2 e (List.getElem?_mem he))))
  have hjl : j < l1.length := lt_trans hjk hkl
  rw [List.getElem?_append_left hjl, List.getElem?_eq_getElem hjl]
  simp [h1 _ (List.getElem_mem hjl)]

theorem no_split_second (l1 l2 : List (Nat × BusEvent)) (d1 d2 : Nat)
    (h1 : ∀ e ∈ l1, e.1 = d2) (h2 : ∀ e ∈ l2, e.1 = d1) (hne : d1 ≠ d2)
    (i j k : Nat) (hij : i < j) (hjk : j < k)
    (hi : ((l1 ++ l2)[i]?).map Prod.fst = some d1)
    (hk : ((l1 ++ l2)[k]?).map Prod.fst = some d1) :
    ((l1 ++ l2)[j]?).map Prod.fst = some d1 := by
  have hil : l1.length ≤ i := by
    by_contra hlt
    push_neg at hlt
    rw [List.getElem?_append_left hlt, List.getElem?_eq_getElem hlt] at hi
    simp at hi
    exact hne ((hi.symm.trans (h1 _ (List.getElem_mem hlt))))
  have hkLen : k < (l1 ++ l2).length := by
    by_contra hge
    push_neg at hge
    rw [List.getElem?_eq_none hge] at hk
    simp at hk
  have hjLen : j < (l1 ++ l2).length := lt_trans hjk hkLen
  have hjl : l1.length ≤ j := le_trans hil (le_of_lt hij)
  rw [List.getElem?_append_right hjl]
  have hlt2 : j - l1.length < l2.length := by
    rw [List.length_append] at hjLen; omega
  rw [List.getElem?_eq_getElem hlt2]
  simp [h2 _ (List.getElem_mem hlt2)]

/-- C2: the whole body of every `SpiSharedDevice` operation runs inside a
single `interrupt::free` critical section, so in any interleaving of two
devices' transactions — the schedulable units being the atomic critical
sections — the flattened register-access trace never places an access of one
device strictly between two accesses of the other. -/
theorem c2_no_interleaving
    (devA devB : SpiSharedDevice) (opA opB : SharedOp)
    (txA txB : Nat → Bool) (rxA rxB : Nat → Option Nat) (fuelA fuelB : Nat)
    (regsA regsB : SpiRegs) (zs : List (List (Nat × BusEvent))) (i j k : Nat)
    (hinter : Interleave
      [tagTrace 0 (sharedOpEvents devA opA txA rxA fuelA regsA)]
      [tagTrace 1 (sharedOpEvents devB opB txB rxB fuelB regsB)] zs)
    (hij : i < j) (hjk : j < k)
    (hi : (zs.flatten[i]?).map Prod.fst = some 0)
    (hk : (zs.flatten[k]?).map Prod.fst = some 0) :
    (zs.flatten[j]?).map Prod.fst = some 0 := by
  have htagA : ∀ e ∈ tagTrace 0 (sharedOpEvents devA opA txA rxA fuelA regsA),
      e.1 = 0 := by
    intro e he
    simp only [tagTrace, List.mem_map] at he
    obtain ⟨x, _, rfl⟩ := he
    rfl
  have htagB : ∀ e ∈ tagTrace 1 (sharedOpEvents devB opB txB rxB fuelB regsB),
      e.1 = 1 := by
    intro e he
    simp only [tagTrace, List.mem_map] at he
    obtain ⟨x, _, rfl⟩ := he
    rfl
  rcases interleave_pair hinter with hzs | hzs <;> subst hzs <;>
    simp only [List.flatten_cons, List.flatten_nil, List.append_nil] at hi hk ⊢
  · exact no_split_first _ _ 0 1 htagA htagB (by omega) j k hjk hk
  · exact no_split_second _ _ 0 1 htagB htagA (by omega) i j k hij hjk hi hk

/-- Witness for `c2_no_interleaving` at a concrete pair of devices, operations
and an explicit interleaving of their two critical sections. -/
theorem c2_no_interleaving_witness :
    ((List.flatten
      [tagTrace 0 (sharedOpEvents devSample0 SharedOp.rd (fun _ => false)
          (fun _ => none) 0 regsInit),
       tagTrace 1 (sharedOpEvents devSample1 SharedOp.rd (fun _ => false)
          (fun _ => none) 0 regsInit)])[1]?).map Prod.fst = some 0 :=
  c2_no_interleaving devSample0 devSample1 SharedOp.rd SharedOp.rd
    (fun _ => false) (fun _ => false) (fun _ => none) (fun _ => none) 0 0
    regsInit regsInit _ 0 1 2
    (Interleave.left _ (Interleave.right _ Interleave.nil))
    (by omega) (by omega) (by decide) (by decide)

theorem inPlaceStep_rx_lt_some (tx : Nat → Bool) (rx : Nat → Option Nat)
    (s : TState) (b : Nat)
    (h1 : (txStep tx s).iread < (txStep tx s).iwrite)
    (h2 : rx (txStep tx s).rxCnt = some b) :
    inPlaceStep tx rx s =
      { buf := (txStep tx s).buf.set (txStep tx s).iread b,
        iwrite := (txStep tx s).iwrite,
        iread := (txStep tx s).iread + 1,
        txCnt := (txStep tx s).txCnt,
        rxCnt := (txStep tx s).rxCnt + 1 } := by
  simp [inPlaceStep, rxStepT, h1, h2]

theorem inPlaceStep_rx_lt_none (tx : Nat → Bool) (rx : Nat → Option Nat)
    (s : TState)
    (h1 : (txStep tx s).iread < (txStep tx s).iwrite)
    (h2 : rx (txStep tx s).rxCnt = none) :
    inPlaceStep tx rx s =
      { buf := (txStep tx s).buf,
        iwrite := (txStep tx s).iwrite,
        iread := (txStep tx s).iread,
        txCnt := (txStep tx s).txCnt,
        rxCnt := (txStep tx s).rxCnt + 1 } := by
  simp [inPlaceStep, rxStepT, h1, h2]

theorem inPlaceStep_rx_ge (tx : Nat → Bool) (rx : Nat → Option Nat) (s : TState)
    (h1 : ¬ (txStep tx s).iread < (txStep tx s).iwrite) :
    inPlaceStep tx rx s = txStep tx s := by
  simp [inPlaceStep, rxStepT, h1]

theorem pollLoop_ready_iter (tx : Nat → Bool) (rx : Nat → Option Nat) :
    ∀ (fuel : Nat) (s s' : TState),
      pollLoop tx rx fuel s = some (PollRes.ready s') →
      ∃ n, s' = (inPlaceStep tx rx)^[n] s ∧ tCondB s' = false ∧
        ∀ m < n, tCondB ((inPlaceStep tx rx)^[m] s) = true := by
  intro fuel
  induction fuel with
  | zero => intro s s' h; cases h
  | succ fuel ih =>
    intro s s' h
    simp only [pollLoop] at h
    by_cases hc : tCondB s = true
    · rw [if_pos hc] at h
      by_cases h1 : (txStep tx s).iread < (txStep tx s).iwrite
      · rw [if_pos h1] at h
        cases hrx : rx (txStep tx s).rxCnt with
        | some b =>
          simp only [hrx] at h
          rw [← inPlaceStep_rx_lt_some tx rx s b h1 hrx] at h
          obtain ⟨n, hn, hcond, hall⟩ := ih _ _ h
          refine ⟨n + 1, ?_, hcond, ?_⟩
          · rw [hn, Function.iterate_succ_apply]
          · intro m hm
            cases m with
            | zero => simpa using hc
            | succ m' =>
              rw [Function.iterate_succ_apply]
              exact hall m' (by omega)
        | none => simp [hrx] at h
      · rw [if_neg h1] at h
        rw [← inPlaceStep_rx_ge tx rx s h1] at h
        obtain ⟨n, hn, hcond, hall⟩ := ih _ _ h
        refine ⟨n + 1, ?_, hcond, ?_⟩
        · rw [hn, Function.iterate_succ_apply]
        · intro m hm
          cases m with
          | zero => simpa using hc
          | succ m' =>
            rw [Function.iterate_succ_apply]
            exact hall m' (by omega)
    · rw [if_neg hc] at h
      simp only [Option.some.injEq, PollRes.ready.injEq] at h
      subst h
      refine ⟨0, by simp, by simpa using hc, ?_⟩
      intro m hm
      omega

theorem pollLoop_pending_iter (tx : Nat → Bool) (rx : Nat → Option Nat) :
    ∀ (fuel : Nat) (s s' : TState),
      pollLoop tx rx fuel s = some (PollRes.pending s') →
      ∃ n, s' = (inPlaceStep tx rx)^[n + 1] s ∧
        ∀ m < n + 1, tCondB ((inPlaceStep tx rx)^[m] s) = true := by
  intro fuel
  induction fuel with
  | zero => intro s s' h; cases h
  | succ fuel ih =>
    intro s s' h
    simp only [pollLoop] at h
    by_cases hc : tCondB s = true
    · rw [if_pos hc] at h
      by_cases h1 : (txStep tx s).iread < (txStep tx s).iwrite
      · rw [if_pos h1] at h
        cases hrx : rx (txStep tx s).rxCnt with
        | some b =>
          simp only [hrx] at h
          rw [← inPlaceStep_rx_lt_some tx rx s b h1 hrx] at h
          obtain ⟨n, hn, hall⟩ := ih _ _ h
          refine ⟨n + 1, ?_, ?_⟩
          · rw [hn]
            exact (Function.iterate_succ_apply _ _ _).symm
          · intro m hm
            cases m with
            | zero => simpa using hc
            | succ m' =>
              rw [Function.iterate_succ_apply]
              exact hall m' (by omega)
        | none =>
          simp only [hrx, Option.some.injEq, PollRes.pending.injEq] at h
          refine ⟨0, ?_, ?_⟩
          · rw [← h, Function.iterate_one]
            exact (inPlaceStep_rx_lt_none tx rx s h1 hrx).symm
          · intro m hm
            have hm0 : m = 0 := by omega
            subst hm0
            simpa using hc
      · rw [if_neg h1] at h
        rw [← inPlaceStep_rx_ge tx rx s h1] at h
        obtain ⟨n, hn, hall⟩ := ih _ _ h
        refine ⟨n + 1, ?_, ?_⟩
        · rw [hn]
          exact (Function.iterate_succ_apply _ _ _).symm
        · intro m hm
          cases m with
          | zero => simpa using hc
          | succ m' =>
            rw [Function.iterate_succ_apply]
            exact hall m' (by omega)
    · rw [if_neg hc] at h
      simp at h

theorem pollDrive_iter (tx : Nat → Bool) (rx : Nat → Option Nat) :
    ∀ (fuels : List Nat) (s s' : TState),
      pollDrive tx rx fuels s = some s' →
      ∃ n, s' = (inPlaceStep tx rx)^[n] s ∧ tCondB s' = false ∧
        ∀ m < n, tCondB ((inPlaceStep tx rx)^[m] s) = true := by
  intro fuels
  induction fuels with
  | nil => intro s s' h; cases h
  | cons fuel rest ih =>
    intro s s' h
    simp only [pollDrive] at h
    cases hpl : pollLoop tx rx fuel s with
    | none => rw [hpl] at h; cases h
    | some pr =>
      rw [hpl] at h
      cases pr with
      | ready s1 =>
        simp only [Option.some.injEq] at h
        subst h
        exact pollLoop_ready_iter tx rx fuel s s1 hpl
      | pending s1 =>
        obtain ⟨n1, hs1, hall1⟩ := pollLoop_pending_iter tx rx fuel s s1 hpl
        obtain ⟨n2, hs2, hcond2, hall2⟩ := ih s1 s' h
        refine ⟨n2 + (n1 + 1), ?_, hcond2, ?_⟩
        · rw [Function.iterate_add_apply, ← hs1, ← hs2]
        · intro m hm
          by_cases hm1 : m < n1 + 1
          · exact hall1 m hm1
          · have hmeq : m = (m - (n1 + 1)) + (n1 + 1) := by omega
            rw [hmeq, Function.iterate_add_apply, ← hs1]
            exact hall2 _ (by omega)

theorem blockingRun_reaches (tx : Nat → Bool) (rx : Nat → Option Nat) :
    ∀ (n : Nat) (s : TState),
      (∀ m < n, tCondB ((inPlaceStep tx rx)^[m] s) = true) →
      tCondB ((inPlaceStep tx rx)^[n] s) = false →
      blockingTransferRun tx rx n s = some ((inPlaceStep tx rx)^[n] s) := by
  intro n
  induction n with
  | zero =>
    intro s hall hc
    simp only [Function.iterate_zero, id] at hc
    simp [blockingTransferRun, hc]
  | succ n ih =>
    intro s hall hc
    have hc0 : tCondB s = true := by
      have := hall 0 (by omega)
      simpa using this
    simp only [blockingTransferRun, hc0, if_true]
    have hall' : ∀ m < n, tCondB ((inPlaceStep tx rx)^[m] (inPlaceStep tx rx s)) = true := by
      intro m hm
      rw [← Function.iterate_succ_apply]
      exact hall (m + 1) (by omega)
    have hc' : tCondB ((inPlaceStep tx rx)^[n] (inPlaceStep tx rx s)) = false := by
      rw [← Function.iterate_succ_apply]
      exact hc
    rw [ih (inPlaceStep tx rx s) hall' hc']
    rw [← Function.iterate_succ_apply]

/-- C10: if repeatedly polling an `AsyncTransferFuture` over a buffer against
a FIFO-readiness schedule reaches `Ready` with final pump state `sF`, then the
blocking `Spi::transfer` started from the same buffer and the same schedule
terminates with exactly the same final state — in particular byte-for-byte the
same buffer contents. -/
theorem c10_async_blocking_equiv (tx : Nat → Bool) (rx : Nat → Option Nat)
    (fuels : List Nat) (s0 sF : TState)
    (h : pollDrive tx rx fuels s0 = some sF) :
    ∃ n, blockingTransferRun tx rx n s0 = some sF := by
  obtain ⟨n, hs, hc, hall⟩ := pollDrive_iter tx rx fuels s0 sF h
  refine ⟨n, ?_⟩
  rw [blockingRun_reaches tx rx n s0 hall (hs ▸ hc), hs]

/-- Witness for `c10_async_blocking_equiv`: a one-byte transfer against a
schedule whose transmit FIFO is never full and whose receive FIFO always holds
the byte 9; one poll completes, and the blocking run reaches the same state. -/
theorem c10_async_blocking_equiv_witness :
    ∃ n, blockingTransferRun (fun _ => false) (fun _ => some 9) n (tInit [5]) =
      some ⟨[9], 1, 1, 1, 1⟩ :=
  c10_async_blocking_equiv (fun _ => false) (fun _ => some 9) [10]
    (tInit [5]) ⟨[9], 1, 1, 1, 1⟩ (by decide)
